import Mathlib

/-!
Verification of the simple-shell job-control engine (src/shell.c).

Shallow embedding of the process-execution and job-control engine of
`src/shell.c` (ntfournier/simple-shell), together with proofs of the
specification's claims about it.

Modelling conventions:

* The fixed-size C arrays `bProcessIds[BACKGROUND_PROCESS]` and
  `bProcessNames[BACKGROUND_PROCESS]` (lines 54-55) are modelled as a single
  `List Slot`; the reachable tables all have length `BACKGROUND_PROCESS`.
  A pid of `0` is the empty-slot sentinel, exactly as in the C code.
* `char *` name pointers are modelled as addresses (`Nat`) into a string
  store (`Nat → String`); the C code stores the pointer, not a copy
  (line 262), and dereferences it at print time (line 279).
* The result that `waitpid(pid, &status, WNOHANG)` leaves in `status`
  (line 297) is modelled by an oracle `st : Nat → Int` giving, for each pid,
  the value observed in `status` after the call.  This folds together the
  OS's report for a process that changed state and the unspecified value the
  C code reads when `waitpid` returned without filling `status`.
-/

/-- Constant `BACKGROUND_PROCESS` (line 29): capacity of the job table. -/
def BACKGROUND_PROCESS : Nat := 10

/-- One slot of the job table: `bProcessIds[i]` paired with `bProcessNames[i]`
(lines 54-55).  `pid = 0` denotes an empty slot; `name` is the stored
`char *`, modelled as an address into a string store. -/
structure Slot where
  pid : Nat
  name : Nat
deriving DecidableEq

/-- The job table at program start: all pids zero (line 54's `= { 0 }`
initializer). -/
def emptyTable : List Slot :=
  List.replicate BACKGROUND_PROCESS (Slot.mk 0 0)

/-- Number of occupied (live) slots: those whose pid differs from the
sentinel `0`. -/
def liveCount (t : List Slot) : Nat :=
  t.countP (fun s => decide (s.pid ≠ 0))

/-- Function `updateBackgroundProcess` (lines 291-308): for every occupied slot,
consult the status observed by the non-blocking `waitpid` (oracle `st`);
if the observed status is `0` the slot's pid is reset to `0` (the name is
left in place, as in the C code), otherwise the job is counted as still
running.  Returns the count and the updated table. -/
def updateBackgroundProcess (st : Nat → Int) : List Slot → Nat × List Slot
  | [] => (0, [])
  | s :: rest =>
    let r := updateBackgroundProcess st rest
    if s.pid ≠ 0 then
      if st s.pid = 0 then (r.1, Slot.mk 0 s.name :: r.2)
      else (r.1 + 1, s :: r.2)
    else (r.1, s :: r.2)

/-- The effect of one reap pass on one slot (the body of the loop of
lines 294-305). -/
def reapSlot (st : Nat → Int) (s : Slot) : Slot :=
  if s.pid ≠ 0 ∧ st s.pid = 0 then Slot.mk 0 s.name else s

/-- The slot-scanning half of `addBackgroundProcess` (lines 259-267): occupy
the first slot whose pid is the sentinel `0`; if no slot is empty the table
is returned unchanged (the C function just falls off the end of the loop). -/
def insertFirstEmpty (p n : Nat) : List Slot → List Slot
  | [] => []
  | s :: rest =>
    if s.pid = 0 then Slot.mk p n :: rest
    else s :: insertFirstEmpty p n rest

/-- Function `addBackgroundProcess` (lines 257-268): first a reap pass, then occupy
the first empty slot with `(p_pid, p_cmdName)`.  The C function returns
`void` and surfaces no error when the table is full. -/
def addBackgroundProcess (st : Nat → Int) (p n : Nat) (t : List Slot) : List Slot :=
  insertFirstEmpty p n (updateBackgroundProcess st t).2

/-- The entries printed by the listing loop of lines 277-281, starting at
slot index `i`: one `(slot, pid, name)` triple per occupied slot, in
ascending slot order. -/
def listEntriesFrom (i : Nat) : List Slot → List (Nat × Nat × Nat)
  | [] => []
  | s :: rest =>
    if s.pid ≠ 0 then (i, s.pid, s.name) :: listEntriesFrom (i + 1) rest
    else listEntriesFrom (i + 1) rest

/-- The `(slot, pid, name)` triples of the occupied slots, in ascending slot
order. -/
def listEntries (t : List Slot) : List (Nat × Nat × Nat) :=
  listEntriesFrom 0 t

/-- Function `listBackgroundProcess` (lines 275-282): a reap pass, then the
`(slot, pid, name)` triples of the occupied slots.  Returns the printed
entries and the table as left by the reap pass. -/
def listBackgroundProcess (st : Nat → Int) (t : List Slot) :
    List (Nat × Nat × Nat) × List Slot :=
  (listEntries (updateBackgroundProcess st t).2, (updateBackgroundProcess st t).2)

/-- The display names the listing loop actually prints: line 279 passes the
stored pointer `bProcessNames[i]` to `printf`, so the name text is read from
the store at print time. -/
def listedNames (store : Nat → String) (t : List Slot) : List String :=
  (t.filter (fun s => s.pid != 0)).map (fun s => store s.name)

/-! ## Reap-pass lemmas -/

theorem updateBackgroundProcess_snd (st : Nat → Int) (t : List Slot) :
    (updateBackgroundProcess st t).2 = t.map (reapSlot st) := by
  induction t with
  | nil => rfl
  | cons s rest ih =>
    by_cases hp : s.pid ≠ 0
    · by_cases hz : st s.pid = 0
      · simp [updateBackgroundProcess, reapSlot, hp, hz, ih]
      · simp [updateBackgroundProcess, reapSlot, hp, hz, ih]
    · simp [updateBackgroundProcess, reapSlot, hp, ih]

theorem updateBackgroundProcess_fst (st : Nat → Int) (t : List Slot) :
    (updateBackgroundProcess st t).1 =
      t.countP (fun s => decide (s.pid ≠ 0 ∧ st s.pid ≠ 0)) := by
  induction t with
  | nil => rfl
  | cons s rest ih =>
    by_cases hp : s.pid ≠ 0
    · by_cases hz : st s.pid = 0
      · simp [updateBackgroundProcess, List.countP_cons, hp, hz, ih]
      · simp [updateBackgroundProcess, List.countP_cons, hp, hz, ih]
    · simp [updateBackgroundProcess, List.countP_cons, hp, ih]

theorem reapSlot_pid (st : Nat → Int) (s : Slot) :
    (reapSlot st s).pid ≠ 0 ↔ s.pid ≠ 0 ∧ st s.pid ≠ 0 := by
  unfold reapSlot
  by_cases hp : s.pid ≠ 0
  · by_cases hz : st s.pid = 0
    · simp [hp, hz]
    · simp [hp, hz]
  · simp [hp]

theorem liveCount_update (st : Nat → Int) (t : List Slot) :
    liveCount (updateBackgroundProcess st t).2 =
      t.countP (fun s => decide (s.pid ≠ 0 ∧ st s.pid ≠ 0)) := by
  rw [updateBackgroundProcess_snd]
  unfold liveCount
  rw [List.countP_map]
  apply List.countP_congr
  intro s _
  simp only [Function.comp, decide_eq_true_eq]
  exact reapSlot_pid st s

theorem updateBackgroundProcess_length (st : Nat → Int) (t : List Slot) :
    (updateBackgroundProcess st t).2.length = t.length := by
  rw [updateBackgroundProcess_snd, List.length_map]

theorem updateBackgroundProcess_noop (st : Nat → Int) (t : List Slot)
    (h : ∀ s ∈ t, s.pid = 0 ∨ st s.pid ≠ 0) :
    (updateBackgroundProcess st t).2 = t := by
  rw [updateBackgroundProcess_snd]
  conv_rhs => rw [show t = t.map id from (List.map_id t).symm]
  apply List.map_congr_left
  intro s hs
  rcases h s hs with h0 | hrun
  · simp [reapSlot, h0]
  · simp [reapSlot, hrun]

theorem liveCount_le_length (t : List Slot) : liveCount t ≤ t.length :=
  List.countP_le_length _

/-- C2: For every occupied slot, a reap pass consults the status observed by
a non-blocking `waitpid` on that slot's pid; it clears the slot's pid exactly
when the observed status is zero, otherwise counts the job as still running,
and it returns the total count of jobs still considered running (the
occupied slots left) after the pass. -/
theorem updateBackgroundProcess_reap_spec (st : Nat → Int) (t : List Slot) :
    (updateBackgroundProcess st t).2 =
      t.map (fun s => if s.pid ≠ 0 ∧ st s.pid = 0 then Slot.mk 0 s.name else s) ∧
    (updateBackgroundProcess st t).1 = liveCount (updateBackgroundProcess st t).2 := by
  constructor
  · exact updateBackgroundProcess_snd st t
  · rw [updateBackgroundProcess_fst, liveCount_update]

/-- C10: A reap pass never creates or alters live entries: pointwise, every
slot occupied after the pass is the slot (same pid, same name) that was there
before, the number of occupied slots does not increase, and the count the
pass returns equals the number of slots it leaves occupied. -/
theorem updateBackgroundProcess_no_new_entries (st : Nat → Int) (t : List Slot) :
    List.Forall₂ (fun b a => a.pid ≠ 0 → a = b) t (updateBackgroundProcess st t).2 ∧
    liveCount (updateBackgroundProcess st t).2 ≤ liveCount t ∧
    (updateBackgroundProcess st t).1 = liveCount (updateBackgroundProcess st t).2 := by
  refine ⟨?_, ?_, ?_⟩
  · rw [updateBackgroundProcess_snd]
    rw [List.forall₂_map_right_iff]
    apply List.forall₂_same.2
    intro s _
    intro hocc
    unfold reapSlot at hocc ⊢
    by_cases h : s.pid ≠ 0 ∧ st s.pid = 0
    · simp [h] at hocc
    · simp [h]
  · rw [liveCount_update]
    unfold liveCount
    apply List.countP_mono_left
    intro s _
    simp only [decide_eq_true_eq]
    exact fun h => h.1
  · rw [updateBackgroundProcess_fst, liveCount_update]

/-- Witness for `updateBackgroundProcess_no_new_entries` at a concrete table
and oracle. -/
theorem updateBackgroundProcess_no_new_entries_witness :
    List.Forall₂ (fun b a => a.pid ≠ 0 → a = b) [Slot.mk 5 0]
      (updateBackgroundProcess (fun _ => 1) [Slot.mk 5 0]).2 :=
  (updateBackgroundProcess_no_new_entries (fun _ => 1) [Slot.mk 5 0]).1

/-! ## Insertion lemmas -/

theorem insertFirstEmpty_length (p n : Nat) (t : List Slot) :
    (insertFirstEmpty p n t).length = t.length := by
  induction t with
  | nil => rfl
  | cons s rest ih =>
    by_cases h : s.pid = 0
    · simp [insertFirstEmpty, h]
    · simp [insertFirstEmpty, h, ih]

theorem insertFirstEmpty_full (p n : Nat) (t : List Slot)
    (h : ∀ s ∈ t, s.pid ≠ 0) : insertFirstEmpty p n t = t := by
  induction t with
  | nil => rfl
  | cons s rest ih =>
    have hs : s.pid ≠ 0 := h s (List.mem_cons_self s rest)
    simp only [insertFirstEmpty, if_neg hs, List.cons.injEq, true_and]
    exact ih (fun x hx => h x (List.mem_cons_of_mem s hx))

theorem mem_insertFirstEmpty (p n : Nat) (t : List Slot) (s : Slot) :
    s ∈ insertFirstEmpty p n t → s ∈ t ∨ s = Slot.mk p n := by
  induction t with
  | nil =>
    intro hs
    simp [insertFirstEmpty] at hs
  | cons a rest ih =>
    intro hs
    by_cases h : a.pid = 0
    · simp only [insertFirstEmpty, if_pos h, List.mem_cons] at hs
      rcases hs with h1 | h2
      · exact Or.inr h1
      · exact Or.inl (List.mem_cons_of_mem _ h2)
    · simp only [insertFirstEmpty, if_neg h, List.mem_cons] at hs
      rcases hs with h1 | h2
      · exact Or.inl (h1 ▸ List.mem_cons_self a rest)
      · rcases ih h2 with h3 | h4
        · exact Or.inl (List.mem_cons_of_mem _ h3)
        · exact Or.inr h4

theorem liveCount_insertFirstEmpty (p n : Nat) (t : List Slot)
    (hp : p ≠ 0) (hroom : liveCount t < t.length) :
    liveCount (insertFirstEmpty p n t) = liveCount t + 1 := by
  induction t with
  | nil => simp [liveCount] at hroom
  | cons a rest ih =>
    by_cases h : a.pid = 0
    · rw [insertFirstEmpty, if_pos h]
      simp [liveCount, List.countP_cons, h, hp]
    · rw [insertFirstEmpty, if_neg h]
      have hroom2 : liveCount rest < rest.length := by
        simp only [liveCount, List.countP_cons, List.length_cons,
          decide_eq_true_eq, if_pos h] at hroom
        simp only [liveCount]
        omega
      have hrec := ih hroom2
      simp only [liveCount, List.countP_cons, decide_eq_true_eq, if_pos h] at hrec ⊢
      omega

/-- C1: At most `BACKGROUND_PROCESS` (10) jobs are ever live: any table of the
fixed length 10 has at most 10 occupied slots, `add` preserves that length
(so the bound holds after every sequence of registry operations), and an
`add` performed while all 10 slots hold still-running jobs returns the table
unchanged: the request is silently dropped, `addBackgroundProcess` being
`void` in the C code. -/
theorem addBackgroundProcess_capacity (st : Nat → Int) (p n : Nat) (t : List Slot)
    (hlen : t.length = BACKGROUND_PROCESS) :
    liveCount t ≤ BACKGROUND_PROCESS ∧
    liveCount (addBackgroundProcess st p n t) ≤ BACKGROUND_PROCESS ∧
    (addBackgroundProcess st p n t).length = BACKGROUND_PROCESS ∧
    ((∀ s ∈ t, s.pid ≠ 0 ∧ st s.pid ≠ 0) → addBackgroundProcess st p n t = t) := by
  have hlen2 : (addBackgroundProcess st p n t).length = BACKGROUND_PROCESS := by
    unfold addBackgroundProcess
    rw [insertFirstEmpty_length, updateBackgroundProcess_length, hlen]
  refine ⟨?_, ?_, hlen2, ?_⟩
  · calc liveCount t ≤ t.length := liveCount_le_length t
      _ = BACKGROUND_PROCESS := hlen
  · calc liveCount (addBackgroundProcess st p n t)
        ≤ (addBackgroundProcess st p n t).length := liveCount_le_length _
      _ = BACKGROUND_PROCESS := hlen2
  · intro hfull
    unfold addBackgroundProcess
    rw [updateBackgroundProcess_noop st t (fun s hs => Or.inr (hfull s hs).2)]
    exact insertFirstEmpty_full p n t (fun s hs => (hfull s hs).1)

/-- Witness for `addBackgroundProcess_capacity`: an eleventh launch into a
table of ten still-running jobs is dropped. -/
theorem addBackgroundProcess_capacity_witness :
    (List.replicate BACKGROUND_PROCESS (Slot.mk 5 0)).length = BACKGROUND_PROCESS ∧
    addBackgroundProcess (fun _ => 1) 7 3 (List.replicate BACKGROUND_PROCESS (Slot.mk 5 0)) =
      List.replicate BACKGROUND_PROCESS (Slot.mk 5 0) :=
  ⟨by decide, (addBackgroundProcess_capacity (fun _ => 1) 7 3
      (List.replicate BACKGROUND_PROCESS (Slot.mk 5 0)) (by decide)).2.2.2 (by decide)⟩

/-! ## Listing lemmas -/

theorem mem_listEntriesFrom (e : Nat × Nat × Nat) (t : List Slot) :
    ∀ i : Nat, e ∈ listEntriesFrom i t →
      ∃ s ∈ t, s.pid ≠ 0 ∧ e.2.1 = s.pid ∧ e.2.2 = s.name := by
  induction t with
  | nil =>
    intro i h
    simp [listEntriesFrom] at h
  | cons a rest ih =>
    intro i h
    by_cases hp : a.pid ≠ 0
    · rw [listEntriesFrom, if_pos hp] at h
      rcases List.mem_cons.1 h with h1 | h2
      · exact ⟨a, List.mem_cons_self a rest, hp, by rw [h1], by rw [h1]⟩
      · rcases ih (i + 1) h2 with ⟨s, hs, hs0, hse⟩
        exact ⟨s, List.mem_cons_of_mem a hs, hs0, hse⟩
    · rw [listEntriesFrom, if_neg hp] at h
      rcases ih (i + 1) h with ⟨s, hs, hs0, hse⟩
      exact ⟨s, List.mem_cons_of_mem a hs, hs0, hse⟩

theorem reap_clears_pid (st : Nat → Int) (t : List Slot) (p : Nat)
    (hp : p ≠ 0) (hst : st p = 0) :
    ∀ s ∈ (updateBackgroundProcess st t).2, s.pid ≠ p := by
  intro s hs
  rw [updateBackgroundProcess_snd] at hs
  rcases List.mem_map.1 hs with ⟨a, _, rfl⟩
  unfold reapSlot
  by_cases h : a.pid ≠ 0 ∧ st a.pid = 0
  · rw [if_pos h]
    simpa using fun habs => hp habs.symm
  · rw [if_neg h]
    intro hap
    exact h ⟨by rw [hap]; exact hp, by rw [hap]; exact hst⟩

/-- OS model (POSIX wait-status encoding): the status word observed for a
child that exited normally with exit code `c` carries `c` in its second-lowest
byte, i.e. equals `256 * c`. -/
def exitedStatus (c : Nat) : Int := 256 * c

/-- C3 counterexample: a single job (pid 5) whose process has exited with
exit code 3 — observed wait status `exitedStatus 3 = 768 ≠ 0` — is NOT freed
by the next registry operation: the reap pass (which is also the first step
of `add` and `list`) leaves its slot occupied, so the claim fails for
processes that exited with a nonzero status. -/
theorem reap_nonzero_exit_not_freed :
    exitedStatus 3 ≠ 0 ∧
    ¬ (∀ s ∈ (updateBackgroundProcess (fun _ => exitedStatus 3) [Slot.mk 5 0]).2,
        s.pid ≠ 5) := by
  decide

/-- C3 amended: for every background job whose underlying process's observed
wait status is zero (in particular one that exited with exit code 0), the
next registry operation — `reapAll` directly, `list`, or `add` with a fresh
pid — frees that job's slot, and `list` never reports a pid whose slot the
pass has cleared. -/
theorem reap_zero_status_frees_slot (st : Nat → Int) (t : List Slot) (p q m : Nat)
    (hp : p ≠ 0) (hst : st p = 0) :
    (∀ s ∈ (updateBackgroundProcess st t).2, s.pid ≠ p) ∧
    (∀ e ∈ (listBackgroundProcess st t).1, e.2.1 ≠ p) ∧
    (q ≠ p → ∀ s ∈ addBackgroundProcess st q m t, s.pid ≠ p) := by
  refine ⟨reap_clears_pid st t p hp hst, ?_, ?_⟩
  · intro e he
    rcases mem_listEntriesFrom e (updateBackgroundProcess st t).2 0 he with
      ⟨s, hs, _, hpid, _⟩
    rw [hpid]
    exact reap_clears_pid st t p hp hst s hs
  · intro hq s hs
    rcases mem_insertFirstEmpty q m (updateBackgroundProcess st t).2 s hs with h1 | h2
    · exact reap_clears_pid st t p hp hst s h1
    · rw [h2]
      simpa using hq

/-- Witness for `reap_zero_status_frees_slot` at a concrete table and
oracle. -/
theorem reap_zero_status_frees_slot_witness :
    (5 : Nat) ≠ 0 ∧
    (∀ s ∈ (updateBackgroundProcess (fun _ => 0) [Slot.mk 5 0]).2, s.pid ≠ 5) :=
  ⟨by decide,
    (reap_zero_status_frees_slot (fun _ => 0) [Slot.mk 5 0] 5 9 0
      (by decide) (by decide)).1⟩

/-! ## The exit command (main loop, lines 82-90) -/

/-- The shell's handling of the `exit` command (lines 82-90): it first calls
`listBackgroundProcess` (whose own reap pass observes statuses `st1`), then
`updateBackgroundProcess` again (observing statuses `st2`); it returns 0 —
terminating the shell — exactly when the second pass counts zero running
jobs, and otherwise prints the count and falls through to the next prompt.
The result is (shell terminates?, printed/observed count, final table). -/
def exitCommand (st1 st2 : Nat → Int) (t : List Slot) : Bool × Nat × List Slot :=
  let t1 := (listBackgroundProcess st1 t).2
  let r := updateBackgroundProcess st2 t1
  (r.1 == 0, r.1, r.2)

/-- C4: The shell never terminates via `exit` while at least one background
job is live: `exit` terminates the shell (return 0) exactly when the final
reap pass counts zero live jobs, the count it reports is the number of slots
left occupied, and whenever at least one job remains live the shell does not
terminate (it prints that count and returns to the prompt). -/
theorem exitCommand_refuses_while_live (st1 st2 : Nat → Int) (t : List Slot) :
    ((exitCommand st1 st2 t).1 = true ↔ (exitCommand st1 st2 t).2.1 = 0) ∧
    (exitCommand st1 st2 t).2.1 = liveCount (exitCommand st1 st2 t).2.2 ∧
    (liveCount (exitCommand st1 st2 t).2.2 ≠ 0 → (exitCommand st1 st2 t).1 = false) := by
  have hcount : (exitCommand st1 st2 t).2.1 = liveCount (exitCommand st1 st2 t).2.2 := by
    unfold exitCommand
    simp only
    rw [updateBackgroundProcess_fst, liveCount_update]
  refine ⟨?_, hcount, ?_⟩
  · unfold exitCommand
    simp [Nat.beq_eq_true_eq]
  · intro hlive
    have hne : (exitCommand st1 st2 t).2.1 ≠ 0 := by
      rw [hcount]
      exact hlive
    unfold exitCommand at hne ⊢
    simp only at hne ⊢
    simp [Nat.beq_eq_true_eq]
    omega

/-- Witness for `exitCommand_refuses_while_live`: with one still-running job
the shell refuses to terminate. -/
theorem exitCommand_refuses_while_live_witness :
    liveCount (exitCommand (fun _ => 1) (fun _ => 1) [Slot.mk 5 0]).2.2 ≠ 0 ∧
    (exitCommand (fun _ => 1) (fun _ => 1) [Slot.mk 5 0]).1 = false :=
  ⟨by decide,
    (exitCommand_refuses_while_live (fun _ => 1) (fun _ => 1) [Slot.mk 5 0]).2.2
      (by decide)⟩

/-! ## Sequences of background launches -/

/-- A sequence of background launches: each pair `(pid, name)` in `ps` is
registered in turn with `addBackgroundProcess`. -/
def runAdds (st : Nat → Int) (ps : List (Nat × Nat)) (t : List Slot) : List Slot :=
  ps.foldl (fun acc q => addBackgroundProcess st q.1 q.2 acc) t

theorem length_listEntriesFrom (t : List Slot) :
    ∀ i, (listEntriesFrom i t).length = liveCount t := by
  induction t with
  | nil =>
    intro i
    simp [listEntriesFrom, liveCount]
  | cons a rest ih =>
    intro i
    unfold liveCount
    rw [List.countP_cons]
    by_cases hp : a.pid ≠ 0
    · rw [listEntriesFrom, if_pos hp, List.length_cons, ih (i + 1)]
      unfold liveCount
      simp [hp]
    · rw [listEntriesFrom, if_neg hp, ih (i + 1)]
      unfold liveCount
      simp [hp]

theorem listEntriesFrom_fst_ge (t : List Slot) :
    ∀ i, ∀ e ∈ listEntriesFrom i t, i ≤ e.1 := by
  induction t with
  | nil =>
    intro i e he
    simp [listEntriesFrom] at he
  | cons a rest ih =>
    intro i e he
    by_cases hp : a.pid ≠ 0
    · rw [listEntriesFrom, if_pos hp] at he
      rcases List.mem_cons.1 he with h1 | h2
      · rw [h1]
      · exact Nat.le_of_succ_le (ih (i + 1) e h2)
    · rw [listEntriesFrom, if_neg hp] at he
      exact Nat.le_of_succ_le (ih (i + 1) e he)

theorem listEntriesFrom_pairwise (t : List Slot) :
    ∀ i, ((listEntriesFrom i t).map Prod.fst).Pairwise (· < ·) := by
  induction t with
  | nil =>
    intro i
    simp [listEntriesFrom]
  | cons a rest ih =>
    intro i
    by_cases hp : a.pid ≠ 0
    · rw [listEntriesFrom, if_pos hp, List.map_cons]
      apply List.Pairwise.cons
      · intro b hb
        rcases List.mem_map.1 hb with ⟨e, he, rfl⟩
        exact Nat.lt_of_succ_le (listEntriesFrom_fst_ge rest (i + 1) e he)
      · exact ih (i + 1)
    · rw [listEntriesFrom, if_neg hp]
      exact ih (i + 1)

theorem runAdds_spec (st : Nat → Int) (ps : List (Nat × Nat)) :
    ∀ t : List Slot,
      (∀ s ∈ t, s.pid = 0 ∨ st s.pid ≠ 0) →
      (∀ q ∈ ps, q.1 ≠ 0 ∧ st q.1 ≠ 0) →
      liveCount t + ps.length ≤ t.length →
      liveCount (runAdds st ps t) = liveCount t + ps.length ∧
      (runAdds st ps t).length = t.length ∧
      (∀ s ∈ runAdds st ps t, s.pid = 0 ∨ st s.pid ≠ 0) := by
  induction ps with
  | nil =>
    intro t hinv hok hroom
    exact ⟨by simp [runAdds], by simp [runAdds], by simpa [runAdds] using hinv⟩
  | cons q qs ih =>
    intro t hinv hok hroom
    have hq := hok q (List.mem_cons_self q qs)
    have hstep : addBackgroundProcess st q.1 q.2 t = insertFirstEmpty q.1 q.2 t := by
      unfold addBackgroundProcess
      rw [updateBackgroundProcess_noop st t hinv]
    have hroomt : liveCount t < t.length := by
      simp only [List.length_cons] at hroom
      omega
    have hlc : liveCount (insertFirstEmpty q.1 q.2 t) = liveCount t + 1 :=
      liveCount_insertFirstEmpty q.1 q.2 t hq.1 hroomt
    have hlen : (insertFirstEmpty q.1 q.2 t).length = t.length :=
      insertFirstEmpty_length q.1 q.2 t
    have hinv2 : ∀ s ∈ insertFirstEmpty q.1 q.2 t, s.pid = 0 ∨ st s.pid ≠ 0 := by
      intro s hs
      rcases mem_insertFirstEmpty q.1 q.2 t s hs with h1 | h2
      · exact hinv s h1
      · rw [h2]
        exact Or.inr hq.2
    have hok2 : ∀ r ∈ qs, r.1 ≠ 0 ∧ st r.1 ≠ 0 :=
      fun r hr => hok r (List.mem_cons_of_mem q hr)
    have hroom2 : liveCount (insertFirstEmpty q.1 q.2 t) + qs.length ≤
        (insertFirstEmpty q.1 q.2 t).length := by
      rw [hlc, hlen]
      simp only [List.length_cons] at hroom
      omega
    have hfold : runAdds st (q :: qs) t = runAdds st qs (insertFirstEmpty q.1 q.2 t) := by
      unfold runAdds
      rw [List.foldl_cons, hstep]
    rcases ih (insertFirstEmpty q.1 q.2 t) hinv2 hok2 hroom2 with ⟨h1, h2, h3⟩
    refine ⟨?_, ?_, ?_⟩
    · rw [hfold, h1, hlc, List.length_cons]
      omega
    · rw [hfold, h2, hlen]
    · rw [hfold]
      exact h3

/-- C5: For every sequence of at most 10 background launches (nonzero pids)
none of whose processes is observed as exited, `list` afterwards returns
exactly that many entries, each occupying a distinct slot; and by definition
`add` first performs a reap pass and then occupies the first empty slot. -/
theorem sequential_adds_listed_distinct (st : Nat → Int) (ps : List (Nat × Nat))
    (hlen : ps.length ≤ BACKGROUND_PROCESS)
    (hok : ∀ q ∈ ps, q.1 ≠ 0 ∧ st q.1 ≠ 0) :
    (listBackgroundProcess st (runAdds st ps emptyTable)).1.length = ps.length ∧
    ((listBackgroundProcess st (runAdds st ps emptyTable)).1.map Prod.fst).Nodup ∧
    (∀ p n u, addBackgroundProcess st p n u =
      insertFirstEmpty p n (updateBackgroundProcess st u).2) := by
  have hempty_inv : ∀ s ∈ emptyTable, s.pid = 0 ∨ st s.pid ≠ 0 := by
    intro s hs
    left
    rw [List.eq_of_mem_replicate hs]
  have h0 : liveCount emptyTable = 0 := by decide
  have hroom : liveCount emptyTable + ps.length ≤ emptyTable.length := by
    rw [h0]
    simpa [emptyTable, BACKGROUND_PROCESS] using hlen
  rcases runAdds_spec st ps emptyTable hempty_inv hok hroom with ⟨h1, h2, h3⟩
  have hnoop : (updateBackgroundProcess st (runAdds st ps emptyTable)).2 =
      runAdds st ps emptyTable :=
    updateBackgroundProcess_noop st _ h3
  refine ⟨?_, ?_, fun p n u => rfl⟩
  · unfold listBackgroundProcess
    simp only
    rw [hnoop]
    unfold listEntries
    rw [length_listEntriesFrom _ 0, h1, h0]
    omega
  · unfold listBackgroundProcess
    simp only
    rw [hnoop]
    unfold listEntries
    exact List.Pairwise.imp (fun h => Nat.ne_of_lt h) (listEntriesFrom_pairwise _ 0)

/-- Witness for `sequential_adds_listed_distinct`: two launches, both still
running, are listed as two entries. -/
theorem sequential_adds_listed_distinct_witness :
    ([((5 : Nat), (0 : Nat)), (6, 1)].length ≤ BACKGROUND_PROCESS) ∧
    (listBackgroundProcess (fun _ => 1)
      (runAdds (fun _ => 1) [(5, 0), (6, 1)] emptyTable)).1.length = 2 :=
  ⟨by decide,
    (sequential_adds_listed_distinct (fun _ => 1) [(5, 0), (6, 1)]
      (by decide) (by decide)).1⟩

/-! ## Fork and wait (runCommand, lines 155-190) -/

/-- Kind of wait a process issues: `waitAny` models `wait(NULL)`, which may
reap any child; `waitFor p` models a wait directed at the specific child
`p`. -/
inductive WaitCall where
  | waitAny
  | waitFor (p : Nat)
deriving DecidableEq

/-- OS model (POSIX): the set of children a wait call may reap, given the
caller's terminated-but-unreaped (zombie) children.  `wait(NULL)` may return
any zombie; a directed wait only the named one. -/
def reapable (zombies : List Nat) : WaitCall → List Nat
  | WaitCall.waitAny => zombies
  | WaitCall.waitFor p => zombies.filter (fun q => q == p)

/-- Parent branch of `runCommand` (lines 182-189): for a background launch
the shell records the *intermediate* process's pid in the registry and issues
no wait; for a foreground launch it issues `wait(NULL)` (line 187) — a wait
for ANY child, not one directed at the forked intermediate process.  Result:
the new job table and the wait call issued, if any. -/
def runCommandParent (st : Nat → Int) (interPid name : Nat) (isBackground : Bool)
    (t : List Slot) : List Slot × Option WaitCall :=
  if isBackground then (addBackgroundProcess st interPid name t, none)
  else (t, some WaitCall.waitAny)

/-- C6 counterexample: a foreground launch whose intermediate process has
pid 7, issued while an exited background intermediate 3 is still an unreaped
child of the shell.  The shell's wait is `wait(NULL)`, whose possible reap
set is exactly the zombie set: it may reap 3 — a child other than the one
forked for this command — and cannot reap 7, which is still running.  This
refutes both "blocks until the intermediate it forked terminates" and "each
wait call reaps exactly the one expected child". -/
theorem foreground_wait_reaps_other_child :
    (runCommandParent (fun _ => 1) 7 0 false emptyTable).2 = some WaitCall.waitAny ∧
    3 ∈ reapable [3] WaitCall.waitAny ∧
    7 ∉ reapable [3] WaitCall.waitAny ∧
    (3 : Nat) ≠ 7 := by
  decide

/-- C6 amended: for a foreground run the shell issues `wait(NULL)`, which
reaps one arbitrary terminated child — guaranteed to be the forked
intermediate only when that is the sole terminated child — and leaves the job
table untouched; for a background run the shell issues no wait and
immediately records the intermediate process's pid in the registry. -/
theorem runCommandParent_wait_spec (st : Nat → Int) (interPid name : Nat)
    (t : List Slot) (zombies : List Nat) :
    (runCommandParent st interPid name false t).2 = some WaitCall.waitAny ∧
    (runCommandParent st interPid name false t).1 = t ∧
    (∀ q ∈ reapable zombies WaitCall.waitAny, q ∈ zombies) ∧
    (zombies = [interPid] → ∀ q ∈ reapable zombies WaitCall.waitAny, q = interPid) ∧
    (runCommandParent st interPid name true t).2 = none ∧
    (runCommandParent st interPid name true t).1 = addBackgroundProcess st interPid name t := by
  refine ⟨rfl, rfl, ?_, ?_, rfl, rfl⟩
  · intro q hq
    exact hq
  · intro hz q hq
    rw [hz] at hq
    simpa [reapable] using hq

/-- Witness for `runCommandParent_wait_spec`: a background launch issues no
wait. -/
theorem runCommandParent_wait_spec_witness :
    (runCommandParent (fun _ => 1) 7 4 true emptyTable).2 = none :=
  (runCommandParent_wait_spec (fun _ => 1) 7 4 emptyTable [7]).2.2.2.2.1

/-! ## Exec failure and statistics (lines 160-181, 227-247) -/

/-- Error code `ENOENT` (errno 2): a path component does not exist. -/
def ENOENT : Nat := 2

/-- OS model (POSIX): `execvp` returns -1 when it fails; the OS error code is
left in `errno`, which this program never reads. -/
def execvpFailReturn : Int := -1

/-- Grandchild branch when exec fails (lines 168-173): `err` is set to the
return value of `execvp`, the diagnostic prints `err` as the error number,
and the grandchild calls `exit(err)`.  Result: the error number the
diagnostic carries and the exit status the parent observes (`exit` keeps the
low eight bits, so `exit(-1)` yields status 255). -/
def grandchildExecFail (rv : Int) : Int × Nat :=
  (rv, (rv % 256).toNat)

/-- C7 counterexample: for a missing program, `execvp` fails with
`errno = ENOENT` (2), but the diagnostic carries `execvp`'s return value -1,
not the underlying OS error code. -/
theorem execFail_report_not_errno :
    (grandchildExecFail execvpFailReturn).1 ≠ (ENOENT : Int) ∧
    (grandchildExecFail execvpFailReturn).1 = -1 := by
  decide

/-- Structure `timeval`: seconds and microseconds. -/
structure Timeval where
  sec : Int
  usec : Int
deriving DecidableEq

/-- Fields of `struct rusage` the program reads (lines 239-246). -/
structure Rusage where
  utime : Timeval
  stime : Timeval
  nvcsw : Int
  nivcsw : Int
  majflt : Int
  minflt : Int
deriving DecidableEq

/-- Wall-clock elapsed microseconds (lines 235-236). -/
def wallClockOf (s e : Timeval) : Int :=
  (e.sec - s.sec) * 1000000 + (e.usec - s.usec)

/-- Combined user+system CPU microseconds (lines 239-240). -/
def cpuTimeOf (u : Rusage) : Int :=
  (u.utime.sec + u.stime.sec) * 1000000 + u.utime.usec + u.stime.usec

/-- Function `printChildrenStatistics` (lines 227-247): the six metric values
of the rendered statistics block, in print order. -/
def printChildrenStatistics (s e : Timeval) (u : Rusage) : List Int :=
  [wallClockOf s e, cpuTimeOf u, u.nvcsw, u.nivcsw, u.majflt, u.minflt]

/-- Intermediate process after its inner fork succeeded (lines 174-181): it
waits for the grandchild and renders the statistics block unconditionally —
these lines never inspect how the grandchild terminated — then exits with
status 0.  Result: the rendered block and the intermediate's exit status. -/
def intermediateAfterFork (s e : Timeval) (u : Rusage) : List Int × Nat :=
  (printChildrenStatistics s e u, 0)

/-- C7 amended: when exec fails, the grandchild's diagnostic carries
`execvp`'s return value -1 (not errno), the grandchild terminates with the
non-zero exit status 255 derived from that return value, and the intermediate
process still waits and still renders the full six-metric statistics
block. -/
theorem execFail_report_spec (s e : Timeval) (u : Rusage) :
    (grandchildExecFail execvpFailReturn).1 = execvpFailReturn ∧
    (grandchildExecFail execvpFailReturn).2 = 255 ∧
    (grandchildExecFail execvpFailReturn).2 ≠ 0 ∧
    (intermediateAfterFork s e u).1 = printChildrenStatistics s e u ∧
    (intermediateAfterFork s e u).1.length = 6 ∧
    (intermediateAfterFork s e u).2 = 0 :=
  ⟨rfl, by decide, by decide, rfl, rfl, rfl⟩

/-! ## Name storage (C8) -/

/-- C8: the stored display name is NOT an independently owned copy.  The slot
keeps the `char *` passed in (line 262 — the TODO on line 184 notes the
missing copy), and the listing loop dereferences it at print time (line 279).
With the identical job table, the name `list` reports tracks the store: if
the argument-vector storage the pointer targets is mutated between
registration and listing, the reported name changes. -/
theorem listedNames_depend_on_store :
    listedNames (fun _ => "sleep") (addBackgroundProcess (fun _ => 1) 5 0 emptyTable) =
      ["sleep"] ∧
    listedNames (fun _ => "clobbered") (addBackgroundProcess (fun _ => 1) 5 0 emptyTable) =
      ["clobbered"] ∧
    listedNames (fun _ => "sleep") (addBackgroundProcess (fun _ => 1) 5 0 emptyTable) ≠
      listedNames (fun _ => "clobbered") (addBackgroundProcess (fun _ => 1) 5 0 emptyTable) := by
  refine ⟨by decide, by decide, by decide⟩

/-! ## The cd builtin (lines 199-220) -/

/-- Error code `EACCES` (errno 13): permission denied. -/
def EACCES : Nat := 13

/-- Error code `ENOTDIR` (errno 20): a path component is not a directory. -/
def ENOTDIR : Nat := 20

/-- Diagnostic text for ENOENT (line 209). -/
def msgMissing : String := "A component of the path does not name an existing directory"

/-- Diagnostic text for EACCES (line 211). -/
def msgDenied : String := "Search permission are denied for any component of the pathname."

/-- Diagnostic text for ENOTDIR (line 213). -/
def msgNotDir : String := "A component of the path is not a directory."

/-- Diagnostic text for any other errno (line 215). -/
def msgUnhandled : String := "Unhandled error."

/-- Diagnostic text for a missing cd argument (line 201). -/
def msgNoParam : String := "Please specify a directory parameter when using cd"

/-- Error-message selection of lines 207-216. -/
def cdErrorMsg (err : Nat) : String :=
  if err = ENOENT then msgMissing
  else if err = EACCES then msgDenied
  else if err = ENOTDIR then msgNotDir
  else msgUnhandled

/-- State `runBuiltinCd` acts on: the working directory and the C `errno`
variable. -/
structure CdState where
  cwd : String
  errno : Nat
deriving DecidableEq

/-- OS model (POSIX `chdir`): on success (outcome `none`) the working
directory becomes the target and `errno` is untouched; on failure (outcome
`some e`) the working directory is unchanged and `errno` is set to `e`. -/
def chdirModel (target : String) (outcome : Option Nat) (st : CdState) : CdState :=
  match outcome with
  | none => CdState.mk target st.errno
  | some e => CdState.mk st.cwd e

/-- Builtin `runBuiltinCd` (lines 199-220): with no path argument it prints a
usage diagnostic; otherwise it calls `chdir`, reads `errno`, and if that is
nonzero prints the classified diagnostic.  Every branch returns to the
shell's loop — nothing in lines 199-220 terminates the process.  Result: the
diagnostic printed, if any, and the state after the call. -/
def runBuiltinCd (path : Option String) (outcome : Option Nat) (st : CdState) :
    Option String × CdState :=
  match path with
  | none => (some msgNoParam, st)
  | some p =>
    let st2 := chdirModel p outcome st
    if st2.errno ≠ 0 then (some (cdErrorMsg st2.errno), st2) else (none, st2)

/-- C9: every failed `chdir` (errno set to a nonzero `e`) is classified into
exactly one of the four diagnostics, which are pairwise distinct; a `cd` to a
nonexistent path (ENOENT) yields the path-component-missing diagnostic; and
the working directory is left unchanged on failure.  `runBuiltinCd` returns
to the caller on every input, so the failure is never fatal to the shell. -/
theorem runBuiltinCd_classification (p : String) (e : Nat) (st : CdState)
    (he : e ≠ 0) :
    (runBuiltinCd (some p) (some e) st).1 = some (cdErrorMsg e) ∧
    (cdErrorMsg e = msgMissing ∨ cdErrorMsg e = msgDenied ∨
      cdErrorMsg e = msgNotDir ∨ cdErrorMsg e = msgUnhandled) ∧
    [msgMissing, msgDenied, msgNotDir, msgUnhandled].Nodup ∧
    (e = ENOENT → (runBuiltinCd (some p) (some e) st).1 = some msgMissing) ∧
    (runBuiltinCd (some p) (some e) st).2.cwd = st.cwd := by
  have hrun : runBuiltinCd (some p) (some e) st =
      (some (cdErrorMsg e), CdState.mk st.cwd e) := by
    unfold runBuiltinCd chdirModel
    simp [he]
  refine ⟨by rw [hrun], ?_, by decide, ?_, by rw [hrun]⟩
  · unfold cdErrorMsg
    split_ifs with h1 h2 h3
    · exact Or.inl rfl
    · exact Or.inr (Or.inl rfl)
    · exact Or.inr (Or.inr (Or.inl rfl))
    · exact Or.inr (Or.inr (Or.inr rfl))
  · intro hE
    rw [hrun]
    unfold cdErrorMsg
    simp [hE]

/-- Witness for `runBuiltinCd_classification`: cd to a nonexistent path
prints the path-component-missing diagnostic and keeps the working
directory. -/
theorem runBuiltinCd_classification_witness :
    ENOENT ≠ 0 ∧
    (runBuiltinCd (some "/nope") (some ENOENT) (CdState.mk "/home" 0)).1 =
      some msgMissing ∧
    (runBuiltinCd (some "/nope") (some ENOENT) (CdState.mk "/home" 0)).2.cwd = "/home" :=
  ⟨by decide,
    (runBuiltinCd_classification "/nope" ENOENT (CdState.mk "/home" 0)
      (by decide)).2.2.2.1 rfl,
    (runBuiltinCd_classification "/nope" ENOENT (CdState.mk "/home" 0)
      (by decide)).2.2.2.2⟩
